import Mathlib

/-!
Verification development for the transcript-search core of `app.py`
(YouTube Transcript Searcher).

The two verified components are

* `create_smart_search_pattern` (app.py, lines 188-239): the plural-aware
  pattern builder.  The Python function compiles a regex
  `\b(?:alt1|alt2|...)\b` with `re.IGNORECASE` whose alternatives are
  `re.escape`d literals.  We embed the pattern as the list of its literal
  alternatives (escaping is semantically transparent for literal matching:
  an escaped literal matches exactly the original characters, and every
  suffix the code slices off — `y`, `s`, `f`, `fe`, `es`, `ies`, `ves` —
  consists of letters, which `re.escape` never rewrites, so slicing the
  escaped string corresponds to slicing the raw lowercased term).  The
  matcher semantics `pattern_search` spells out Python's `\b` word-boundary
  and `re.IGNORECASE` rules.  `\w` is modelled at its ASCII core
  (letters, digits, underscore); every string the claims touch is ASCII.

* `search_all_transcripts` (app.py, lines 242-284) together with
  `get_video_metadata` (app.py, lines 110-136): the corpus searcher.  The
  cache directory listing is modelled as an association list
  `List (String × Transcript)` in directory-iteration order (the
  `.json`-filename handling is I/O glue), and the YouTube metadata service
  is an explicit collaborator `MetaSvc`; `Except.error` models a raised
  exception, `Except.ok none` a response whose `items` list is empty.
  A transcript segment's `start` field is only ever copied into the
  result's `timestamp`, never computed with, so its numeric type is
  irrelevant to the logic; we use `Nat` for the seconds offset.
  The searcher also returns the ordered log of video ids for which the
  metadata collaborator was invoked, making the call-ordering contract
  provable.  Python's `list.sort(key=..., reverse=True)` is a stable
  descending sort comparing key strings by code point; `sortByPublishedDesc`
  is the standard stable insertion sort with exactly that comparison.
-/

/-- ASCII core of Python's `\w` (regex word character): letter (`A`-`Z`,
`a`-`z`), digit (`0`-`9`) or underscore, by code point.  Python's default
is Unicode-aware; all texts in the spec and claims are ASCII, where the
two coincide. -/
def isWordChar (c : Char) : Bool :=
  decide ((65 ≤ c.toNat ∧ c.toNat ≤ 90) ∨ (97 ≤ c.toNat ∧ c.toNat ≤ 122) ∨
    (48 ≤ c.toNat ∧ c.toNat ≤ 57) ∨ c.toNat = 95)

/-- ASCII lowercasing of one character, Python `str.lower` restricted to
the ASCII range (`A`-`Z` map to `a`-`z`, everything else is fixed). -/
def lowerChar (c : Char) : Char :=
  if 65 ≤ c.toNat ∧ c.toNat ≤ 90 then Char.ofNat (c.toNat + 32) else c

/-- Pointwise lowercasing of a character list (Python `str.lower`). -/
def lowerL (s : List Char) : List Char :=
  s.map lowerChar

/-- Case-insensitive character comparison, the effect of `re.IGNORECASE`
on a literal character (ASCII). -/
def ciCharEq (a b : Char) : Bool :=
  lowerChar a == lowerChar b

/-- Python `str.endswith(suffix)` on character lists, phrased through the
reversed list so that suffix tests of different lengths confront each
other head-first. -/
def endsWithL (s suffix : List Char) : Bool :=
  decide (s.reverse.take suffix.length = suffix.reverse)

/-- Python slicing `s[:-n]`: all but the last `n` characters. -/
def dropRightL (s : List Char) (n : Nat) : List Char :=
  s.take (s.length - n)

/-- Is the character at index `i` of `text` a word character?
Out-of-range positions count as non-word, exactly as the ends of the
subject string do for Python's `\b`. -/
def wordAt (text : List Char) (i : Nat) : Bool :=
  match text.get? i with
  | some c => isWordChar c
  | none => false

/-- Is the character just before index `i` a word character? -/
def wordBefore (text : List Char) (i : Nat) : Bool :=
  match i with
  | 0 => false
  | j + 1 => wordAt text j

/-- Python's `\b`: position `i` lies on a word boundary of `text` iff
exactly one of the adjacent characters is a word character. -/
def boundaryAt (text : List Char) (i : Nat) : Bool :=
  wordBefore text i != wordAt text i

/-- The literal alternative `v` matches `text` at offset `i` under
`re.IGNORECASE`. -/
def litMatchAt (v text : List Char) (i : Nat) : Bool :=
  decide (i + v.length ≤ text.length) &&
    ((v.zip (text.drop i)).all fun p => ciCharEq p.1 p.2)

/-- The alternative `v` matches at offset `i` with word boundaries on both
sides: the semantics of `\b v \b` at one position. -/
def wordMatchAt (v text : List Char) (i : Nat) : Bool :=
  litMatchAt v text i && boundaryAt text i && boundaryAt text (i + v.length)

/-- `re.search` of the compiled pattern `\b(?:alt1|...|altn)\b` with
`re.IGNORECASE`: some alternative matches as a whole word at some position
of `text`. -/
def pattern_search (alts : List String) (text : String) : Bool :=
  alts.any fun v =>
    (List.range (text.data.length + 1)).any fun i => wordMatchAt v.data text.data i

/-- Forward (singular→plural) variants, app.py lines 198-216: a single
`if`/`elif` chain on suffixes of the original-cased `search_term`, slicing
the escaped lowercased term.  `t` is the raw term, `escaped` the
(semantic) lowercased literal. -/
def forwardVariants (t escaped : List Char) : List (List Char) :=
  if endsWithL t ['y'] then
    [dropRightL escaped 1 ++ ['i', 'e', 's']]
  else if endsWithL t ['s'] || endsWithL t ['s', 'h'] || endsWithL t ['c', 'h'] ||
      endsWithL t ['x'] || endsWithL t ['z'] then
    [escaped ++ ['e', 's']]
  else if endsWithL t ['f'] then
    [dropRightL escaped 1 ++ ['v', 'e', 's']]
  else if endsWithL t ['f', 'e'] then
    [dropRightL escaped 2 ++ ['v', 'e', 's']]
  else
    [escaped ++ ['s']]

/-- Backward (plural→singular) variants, app.py lines 218-235: a single
`if`/`elif` chain; only the `es` and `s` rules carry length guards. -/
def backwardVariants (t escaped : List Char) : List (List Char) :=
  if endsWithL t ['i', 'e', 's'] then
    [dropRightL escaped 3 ++ ['y']]
  else if endsWithL t ['v', 'e', 's'] then
    [dropRightL escaped 3 ++ ['f'], dropRightL escaped 3 ++ ['f', 'e']]
  else if endsWithL t ['e', 's'] && decide (t.length > 3) then
    [dropRightL escaped 2]
  else if endsWithL t ['s'] && decide (t.length > 2) then
    [dropRightL escaped 1]
  else
    []

/-- The ordered alternative list of the compiled pattern: the escaped
lowercased original first, then the forward variant, then the backward
variants (app.py line 196 and the two appending chains). -/
def variantLists (t : List Char) : List (List Char) :=
  (lowerL t :: forwardVariants t (lowerL t)) ++ backwardVariants t (lowerL t)

/-- app.py lines 188-239, `create_smart_search_pattern`: the compiled
pattern, embedded as its list of literal alternatives; the matcher itself
is `pattern_search` applied to this list. -/
def create_smart_search_pattern (search_term : String) : List String :=
  (variantLists search_term.data).map String.mk

/-- `items[0].snippet` of a YouTube `videos().list` response (app.py
lines 120-127). -/
structure Snippet where
  title : String
  publishedAt : String
  channelTitle : String
  description : Option String
deriving DecidableEq, Repr

/-- The metadata collaborator: `Except.error` models the API call raising,
`Except.ok none` a response with no items, `Except.ok (some s)` a response
whose first item has snippet `s`. -/
abbrev MetaSvc := String → Except String (Option Snippet)

/-- The metadata record returned by `get_video_metadata`. -/
structure VideoMetadata where
  title : String
  published_at : String
  channel_title : String
  description : String
deriving DecidableEq, Repr

/-- The fallback metadata of app.py lines 131-136. -/
def fallbackMetadata (video_id : String) : VideoMetadata :=
  { title := "Video " ++ video_id
    published_at := "Unknown"
    channel_title := "Unknown"
    description := "" }

/-- app.py lines 110-136, `get_video_metadata`: on a successful response
with at least one item, the snippet fields (`description` defaulted to
`""` by `.get('description', '')`); on an exception or an empty `items`
list, the fallback record. -/
def get_video_metadata (svc : MetaSvc) (video_id : String) : VideoMetadata :=
  match svc video_id with
  | .ok (some info) =>
      { title := info.title
        published_at := info.publishedAt
        channel_title := info.channelTitle
        description := info.description.getD "" }
  | _ => fallbackMetadata video_id

/-- One timed transcript segment (`{'start': seconds, 'text': ...}`). -/
structure TranscriptSegment where
  start : Nat
  text : String
deriving DecidableEq, Repr

/-- A cached transcript: the ordered segment list of one video. -/
abbrev Transcript := List TranscriptSegment

/-- One match entry built at app.py lines 262-265. -/
structure MatchResult where
  timestamp : Nat
  text : String
deriving DecidableEq, Repr

/-- One per-video result bundle built at app.py lines 275-279. -/
structure VideoSearchResult where
  video_id : String
  metadata : VideoMetadata
  «matches» : List MatchResult
deriving DecidableEq, Repr

/-- app.py lines 258-265: the matching segments of one transcript, in
segment order, turned into match entries. -/
def segmentMatches (pattern : List String) (tr : Transcript) : List MatchResult :=
  (tr.filter fun e => pattern_search pattern e.text).map fun e => ⟨e.start, e.text⟩

/-- app.py line 272: the `continue` condition.  Python string truthiness
makes `None` and `""` both skip the filter. -/
def excludedByFilter (channel_filter : Option String) (metadata : VideoMetadata) : Bool :=
  match channel_filter with
  | none => false
  | some f => f != "" && f != "All Channels" && metadata.channel_title != f

/-- app.py lines 251-279, the per-video loop: walks the cached corpus in
listing order, collects the result bundles (pre-sort) and the ordered log
of video ids for which `get_video_metadata` was invoked. -/
def collectResults (svc : MetaSvc) (pattern : List String) (channel_filter : Option String) :
    List (String × Transcript) → List VideoSearchResult × List String
  | [] => ([], [])
  | (video_id, transcript) :: rest =>
      let video_results := segmentMatches pattern transcript
      if video_results.isEmpty then
        collectResults svc pattern channel_filter rest
      else
        let metadata := get_video_metadata svc video_id
        let tail := collectResults svc pattern channel_filter rest
        if excludedByFilter channel_filter metadata then
          (tail.1, video_id :: tail.2)
        else
          (⟨video_id, metadata, video_results⟩ :: tail.1, video_id :: tail.2)

/-- Python string comparison on code points (lexicographic, a proper
prefix is smaller), used by `sort(key=...)` on the `published_at`
strings. -/
def strLtL (a b : List Char) : Bool :=
  match a, b with
  | [], [] => false
  | [], _ :: _ => true
  | _ :: _, [] => false
  | c :: cs, d :: ds => if c < d then true else if d < c then false else strLtL cs ds

/-- The sort key comparison of app.py line 282: strictly earlier
`published_at` (raw string value, `"Unknown"` included). -/
def pubLt (a b : VideoSearchResult) : Bool :=
  strLtL a.metadata.published_at.data b.metadata.published_at.data

/-- Stable descending insertion: `x` moves past exactly the entries with
strictly greater key, so equal keys keep their original order — the
behaviour of Python's stable `sort(..., reverse=True)`. -/
def insertByDesc (x : VideoSearchResult) : List VideoSearchResult → List VideoSearchResult
  | [] => [x]
  | y :: ys => if pubLt x y then y :: insertByDesc x ys else x :: y :: ys

/-- app.py line 282: stable sort by `published_at` descending. -/
def sortByPublishedDesc : List VideoSearchResult → List VideoSearchResult
  | [] => []
  | x :: xs => insertByDesc x (sortByPublishedDesc xs)

/-- app.py lines 242-284, `search_all_transcripts`: build the pattern,
scan the corpus, sort the surviving bundles by publish date descending.
First component: the returned results; second: the ordered metadata-call
log. -/
def search_all_transcripts (svc : MetaSvc) (corpus : List (String × Transcript))
    (search_term : String) (channel_filter : Option String) :
    List VideoSearchResult × List String :=
  let pattern := create_smart_search_pattern search_term
  let collected := collectResults svc pattern channel_filter corpus
  (sortByPublishedDesc collected.1, collected.2)

theorem toNat_charOfNat (n : Nat) (h : n.isValidChar) : (Char.ofNat n).toNat = n := by
  rw [Char.ofNat, dif_pos h]; rfl

theorem lowerChar_toNat (c : Char) (h : 65 ≤ c.toNat ∧ c.toNat ≤ 90) :
    (lowerChar c).toNat = c.toNat + 32 := by
  rw [lowerChar, if_pos h]
  exact toNat_charOfNat _ (Or.inl (by omega))

theorem lowerChar_eq_self (c : Char) (h : ¬ (65 ≤ c.toNat ∧ c.toNat ≤ 90)) :
    lowerChar c = c := by
  rw [lowerChar, if_neg h]

theorem lowerChar_idem (c : Char) : lowerChar (lowerChar c) = lowerChar c := by
  by_cases h : 65 ≤ c.toNat ∧ c.toNat ≤ 90
  · have hv := lowerChar_toNat c h
    apply lowerChar_eq_self
    omega
  · rw [lowerChar_eq_self c h, lowerChar_eq_self c h]

theorem isWordChar_lowerChar (c : Char) : isWordChar (lowerChar c) = isWordChar c := by
  by_cases h : 65 ≤ c.toNat ∧ c.toNat ≤ 90
  · have hv := lowerChar_toNat c h
    simp only [isWordChar, decide_eq_decide, hv]
    omega
  · rw [lowerChar_eq_self c h]

theorem ciCharEq_self (c : Char) : ciCharEq c c = true := by
  simp [ciCharEq]

theorem zip_self_all_ci : ∀ l : List Char, ((l.zip l).all fun p => ciCharEq p.1 p.2) = true := by
  intro l
  induction l with
  | nil => rfl
  | cons c cs ih =>
      simp only [List.zip_cons_cons, List.all_cons, ciCharEq_self, Bool.true_and]
      exact ih

theorem wordAt_length (l : List Char) : wordAt l l.length = false := by
  rw [wordAt, List.get?_len_le (Nat.le_refl _)]

theorem wordMatchAt_self (l : List Char) (h0 : l ≠ [])
    (hfirst : wordAt l 0 = true) (hlast : wordAt l (l.length - 1) = true) :
    wordMatchAt l l 0 = true := by
  obtain ⟨c, cs, rfl⟩ := List.exists_cons_of_ne_nil h0
  rw [wordMatchAt, litMatchAt]
  simp only [Nat.zero_add, List.drop_zero]
  rw [zip_self_all_ci]
  have hb0 : boundaryAt (c :: cs) 0 = true := by
    rw [boundaryAt, wordBefore]
    rw [show wordAt (c :: cs) 0 = true from hfirst]
    rfl
  have hbl : boundaryAt (c :: cs) (cs.length + 1) = true := by
    rw [boundaryAt, wordBefore]
    rw [show wordAt (c :: cs) cs.length = true from by
      simpa using hlast]
    rw [show wordAt (c :: cs) (cs.length + 1) = false from by
      simpa using wordAt_length (c :: cs)]
    rfl
  rw [hb0]
  simp only [List.length_cons]
  rw [hbl]
  simp

/-- C1 (as stated in the spec): the claim quantifies over every non-empty
lowercase term.  It fails for a lowercase term whose last character is not
a word character, because the closing `\b` then finds no boundary: the
compiled matcher for `"a!"` does not accept `"a!"` itself. -/
theorem c1_counterexample :
    ("a!" : String) ≠ "" ∧ lowerL "a!".data = "a!".data ∧
      pattern_search (create_smart_search_pattern "a!") "a!" = false := by
  refine ⟨by decide, by decide, by decide⟩

/-- C1 (amended): for every non-empty lowercase term whose first and last
characters are word characters (letters, digits or underscore — in
particular every plain alphabetic term), the compiled matcher accepts the
term itself: the escaped original is the first alternative and matches the
whole input with a word boundary on both sides. -/
theorem c1_pattern_accepts_own_term (t : String) (h0 : t.data ≠ [])
    (hlow : lowerL t.data = t.data)
    (hfirst : wordAt t.data 0 = true)
    (hlast : wordAt t.data (t.data.length - 1) = true) :
    pattern_search (create_smart_search_pattern t) t = true := by
  rw [pattern_search, List.any_eq_true]
  refine ⟨String.mk (lowerL t.data), ?_, ?_⟩
  · exact List.mem_map_of_mem String.mk (by
      rw [variantLists, List.cons_append]
      exact List.mem_cons_self _ _)
  · rw [List.any_eq_true]
    refine ⟨0, List.mem_range.mpr (Nat.succ_pos _), ?_⟩
    show wordMatchAt (lowerL t.data) t.data 0 = true
    rw [hlow]
    exact wordMatchAt_self t.data h0 hfirst hlast

theorem c1_pattern_accepts_own_term_witness :
    ("cat" : String).data ≠ [] ∧ lowerL "cat".data = "cat".data ∧
      wordAt "cat".data 0 = true ∧ wordAt "cat".data ("cat".data.length - 1) = true ∧
      pattern_search (create_smart_search_pattern "cat") "cat" = true :=
  ⟨by decide, by decide, by decide, by decide,
    c1_pattern_accepts_own_term "cat" (by decide) (by decide) (by decide) (by decide)⟩

theorem take_one_eq {l : List Char} {a : Char} (h : l.take 1 = [a]) :
    ∃ rest, l = a :: rest := by
  match l with
  | [] => simp at h
  | x :: rest =>
      rw [show (x :: rest).take 1 = [x] from rfl] at h
      simp only [List.cons.injEq, and_true] at h
      exact ⟨rest, by rw [h]⟩

theorem take_two_eq {l : List Char} {a b : Char} (h : l.take 2 = [a, b]) :
    ∃ rest, l = a :: b :: rest := by
  match l with
  | [] => simp at h
  | [x] => simp at h
  | x :: y :: rest =>
      rw [show (x :: y :: rest).take 2 = [x, y] from rfl] at h
      simp only [List.cons.injEq, and_true] at h
      exact ⟨rest, by rw [h.1, h.2]⟩

theorem take_three_eq {l : List Char} {a b c : Char} (h : l.take 3 = [a, b, c]) :
    ∃ rest, l = a :: b :: c :: rest := by
  match l with
  | [] => simp at h
  | [x] => simp at h
  | [x, y] => simp at h
  | x :: y :: z :: rest =>
      rw [show (x :: y :: z :: rest).take 3 = [x, y, z] from rfl] at h
      simp only [List.cons.injEq, and_true] at h
      exact ⟨rest, by rw [h.1, h.2.1, h.2.2]⟩

theorem rev_of_endsWith₂ {t : List Char} {d1 d2 : Char} (h : endsWithL t [d1, d2] = true) :
    ∃ rest, t.reverse = d2 :: d1 :: rest :=
  take_two_eq (of_decide_eq_true h)

theorem rev_of_endsWith₃ {t : List Char} {d1 d2 d3 : Char}
    (h : endsWithL t [d1, d2, d3] = true) :
    ∃ rest, t.reverse = d3 :: d2 :: d1 :: rest :=
  take_three_eq (of_decide_eq_true h)

theorem endsWith_eval₁ {t : List Char} {c : Char} {rest : List Char}
    (hrev : t.reverse = c :: rest) (d : Char) :
    endsWithL t [d] = decide (c = d) := by
  simp only [endsWithL]
  rw [hrev]
  rw [show (c :: rest).take ([d] : List Char).length = [c] from rfl]
  simp

theorem endsWith_eval₂ {t : List Char} {c1 c2 : Char} {rest : List Char}
    (hrev : t.reverse = c1 :: c2 :: rest) (d1 d2 : Char) :
    endsWithL t [d1, d2] = decide (c1 = d2 ∧ c2 = d1) := by
  simp only [endsWithL]
  rw [hrev]
  rw [show (c1 :: c2 :: rest).take ([d1, d2] : List Char).length = [c1, c2] from rfl]
  simp

theorem endsWith_eval₃ {t : List Char} {c1 c2 c3 : Char} {rest : List Char}
    (hrev : t.reverse = c1 :: c2 :: c3 :: rest) (d1 d2 d3 : Char) :
    endsWithL t [d1, d2, d3] = decide (c1 = d3 ∧ c2 = d2 ∧ c3 = d1) := by
  simp only [endsWithL]
  rw [hrev]
  rw [show (c1 :: c2 :: c3 :: rest).take ([d1, d2, d3] : List Char).length = [c1, c2, c3]
    from rfl]
  simp

/-- C2 (as stated in the spec): the claim says that for a term of length 3
or less ending in `ies` no `y` variant is added.  The code has no length
guard on that branch: for the term `"ies"` itself the variant `"y"` is
appended and the compiled matcher accepts the text `"y"`. -/
theorem c2_counterexample :
    ("ies" : String).length ≤ 3 ∧ ("y" : String) ∈ create_smart_search_pattern "ies" ∧
      pattern_search (create_smart_search_pattern "ies") "y" = true := by
  refine ⟨by decide, by decide, by decide⟩

/-- C2 (amended): the backward `ies` and `ves` rules carry no length
condition at all — for every term ending in `ies` the `y` variant is
appended, and for every term ending in `ves` both the `f` and `fe`
variants are appended, including terms of length 3 whose stem is empty. -/
theorem c2_backward_ies_ves_unguarded :
    (∀ t : String, endsWithL t.data ['i', 'e', 's'] = true →
      backwardVariants t.data (lowerL t.data) =
        [dropRightL (lowerL t.data) 3 ++ ['y']]) ∧
    (∀ t : String, endsWithL t.data ['v', 'e', 's'] = true →
      backwardVariants t.data (lowerL t.data) =
        [dropRightL (lowerL t.data) 3 ++ ['f'], dropRightL (lowerL t.data) 3 ++ ['f', 'e']]) := by
  constructor
  · intro t h
    simp [backwardVariants, h]
  · intro t h
    obtain ⟨rest, hrev⟩ := rev_of_endsWith₃ h
    have hies : endsWithL t.data ['i', 'e', 's'] = false := by
      rw [endsWith_eval₃ hrev]; decide
    simp [backwardVariants, hies, h]

theorem c2_backward_ies_ves_unguarded_witness :
    endsWithL ("ies" : String).data ['i', 'e', 's'] = true ∧
      backwardVariants ("ies" : String).data (lowerL ("ies" : String).data) =
        [dropRightL (lowerL ("ies" : String).data) 3 ++ ['y']] :=
  ⟨by decide, c2_backward_ies_ves_unguarded.1 "ies" (by decide)⟩

/-- C3 (as stated in the spec): the claim says the compiled matcher is
invariant under the input term's casing.  It is not: the suffix rules test
the original-cased term, so `"CITY"` (whose last character is `'Y'`, not
`'y'`) gets the default `+s` plural instead of the `ies` form —
`build_pattern("CITY")` rejects `"cities"` while `build_pattern("city")`
accepts it. -/
theorem c3_counterexample :
    pattern_search (create_smart_search_pattern "CITY") "cities" = false ∧
      pattern_search (create_smart_search_pattern "city") "cities" = true := by
  refine ⟨by decide, by decide⟩

theorem ciCharEq_lower_right (a b : Char) : ciCharEq a (lowerChar b) = ciCharEq a b := by
  simp [ciCharEq, lowerChar_idem]

theorem wordAt_lowerL (l : List Char) (j : Nat) : wordAt (lowerL l) j = wordAt l j := by
  rw [wordAt, wordAt, lowerL, List.get?_map]
  cases l.get? j with
  | none => rfl
  | some c => exact isWordChar_lowerChar c

theorem wordBefore_lowerL (l : List Char) (i : Nat) :
    wordBefore (lowerL l) i = wordBefore l i := by
  cases i with
  | zero => rfl
  | succ j => exact wordAt_lowerL l j

theorem boundaryAt_lowerL (l : List Char) (i : Nat) :
    boundaryAt (lowerL l) i = boundaryAt l i := by
  rw [boundaryAt, boundaryAt, wordAt_lowerL, wordBefore_lowerL]

theorem all_ci_zip_lower : ∀ ps : List (Char × Char),
    (ps.all fun p => ciCharEq p.1 (lowerChar p.2)) = ps.all fun p => ciCharEq p.1 p.2 := by
  intro ps
  induction ps with
  | nil => rfl
  | cons p rest ih => simp only [List.all_cons, ciCharEq_lower_right, ih]

theorem litMatchAt_lowerL (v l : List Char) (i : Nat) :
    litMatchAt v (lowerL l) i = litMatchAt v l i := by
  rw [litMatchAt, litMatchAt, lowerL, List.length_map]
  congr 1
  rw [← List.map_drop, List.zip_map_right, List.all_map]
  have hc : ((fun p : Char × Char => ciCharEq p.1 p.2) ∘ Prod.map id lowerChar) =
      fun p : Char × Char => ciCharEq p.1 (lowerChar p.2) := by
    funext p
    cases p
    rfl
  rw [hc]
  exact all_ci_zip_lower _

theorem wordMatchAt_lowerL (v l : List Char) (i : Nat) :
    wordMatchAt v (lowerL l) i = wordMatchAt v l i := by
  rw [wordMatchAt, wordMatchAt, litMatchAt_lowerL, boundaryAt_lowerL, boundaryAt_lowerL]

/-- C3 (amended): the matcher is case-insensitive in the *text* — for any
alternative list, lowercasing the subject text does not change the search
outcome, and the spec's example `build_pattern("Cat").matches("I saw a
CAT")` holds — but the pattern itself is not invariant under the *term*'s
casing (see the counterexample). -/
theorem c3_text_case_insensitive :
    (∀ (alts : List String) (text : String),
      pattern_search alts ⟨lowerL text.data⟩ = pattern_search alts text) ∧
    pattern_search (create_smart_search_pattern "Cat") "I saw a CAT" = true := by
  constructor
  · intro alts text
    rw [pattern_search, pattern_search]
    have hlen : (String.mk (lowerL text.data)).data.length = text.data.length := by
      simp [lowerL]
    rw [show (String.mk (lowerL text.data)).data = lowerL text.data from rfl]
    rw [show (lowerL text.data).length = text.data.length from by simp [lowerL]]
    congr 1
    funext v
    congr 1
    funext i
    exact wordMatchAt_lowerL v.data text.data i
  · decide

/-- C4: for every term ending in `fe` the forward chain falls through to
the `fe` branch (the `y`, `s`/`sh`/`ch`/`x`/`z` and bare-`f` tests all
fail on a term whose last character is `e`), replacing the trailing `fe`
by `ves`; in particular knife→knives and wife→wives both match. -/
theorem c4_forward_fe_rule :
    (∀ t : String, endsWithL t.data ['f', 'e'] = true →
      forwardVariants t.data (lowerL t.data) =
        [dropRightL (lowerL t.data) 2 ++ ['v', 'e', 's']]) ∧
    pattern_search (create_smart_search_pattern "knife") "knives" = true ∧
    pattern_search (create_smart_search_pattern "wife") "wives" = true := by
  refine ⟨?_, by decide, by decide⟩
  intro t h
  obtain ⟨rest, hrev⟩ := rev_of_endsWith₂ h
  have hy : endsWithL t.data ['y'] = false := by rw [endsWith_eval₁ hrev]; decide
  have hs : endsWithL t.data ['s'] = false := by rw [endsWith_eval₁ hrev]; decide
  have hx : endsWithL t.data ['x'] = false := by rw [endsWith_eval₁ hrev]; decide
  have hz : endsWithL t.data ['z'] = false := by rw [endsWith_eval₁ hrev]; decide
  have hf : endsWithL t.data ['f'] = false := by rw [endsWith_eval₁ hrev]; decide
  have hsh : endsWithL t.data ['s', 'h'] = false := by rw [endsWith_eval₂ hrev]; decide
  have hch : endsWithL t.data ['c', 'h'] = false := by rw [endsWith_eval₂ hrev]; decide
  simp [forwardVariants, hy, hs, hx, hz, hf, hsh, hch, h]

theorem c4_forward_fe_rule_witness :
    endsWithL ("knife" : String).data ['f', 'e'] = true ∧
      forwardVariants ("knife" : String).data (lowerL ("knife" : String).data) =
        [dropRightL (lowerL ("knife" : String).data) 2 ++ ['v', 'e', 's']] :=
  ⟨by decide, c4_forward_fe_rule.1 "knife" (by decide)⟩

/-- C5 (as stated in the spec): the claim says the backward rules are
non-exclusive, so that for `"dishes"` both the `es` stem (`"dish"`) and
the `s` stem (`"dishe"`) would be variants.  The code's `elif` chain is
exclusive: `"dish"` is a variant of `"dishes"` but `"dishe"` is not, and
the matcher rejects the text `"dishe"`. -/
theorem c5_counterexample :
    ("dish" : String) ∈ create_smart_search_pattern "dishes" ∧
      ("dishe" : String) ∉ create_smart_search_pattern "dishes" ∧
      pattern_search (create_smart_search_pattern "dishes") "dishe" = false := by
  refine ⟨by decide, by decide, by decide⟩

/-- C5 (amended): the backward rules are evaluated in the documented order
but as a mutually exclusive first-match-wins `elif` chain: a term ending
in `es` (but not `ies` or `ves`) of length greater than 3 gets exactly the
`es`-stripped stem as its only backward variant — the trailing-`s` rule
does not also fire. -/
theorem c5_backward_exclusive (t : String)
    (hes : endsWithL t.data ['e', 's'] = true)
    (hies : endsWithL t.data ['i', 'e', 's'] = false)
    (hves : endsWithL t.data ['v', 'e', 's'] = false)
    (hlen : 3 < t.data.length) :
    backwardVariants t.data (lowerL t.data) = [dropRightL (lowerL t.data) 2] := by
  have hlen2 : 3 < t.length := hlen
  simp [backwardVariants, hes, hies, hves, hlen2]

theorem c5_backward_exclusive_witness :
    (endsWithL ("dishes" : String).data ['e', 's'] = true ∧
      endsWithL ("dishes" : String).data ['i', 'e', 's'] = false ∧
      endsWithL ("dishes" : String).data ['v', 'e', 's'] = false ∧
      3 < ("dishes" : String).data.length) ∧
      backwardVariants ("dishes" : String).data (lowerL ("dishes" : String).data) =
        [dropRightL (lowerL ("dishes" : String).data) 2] :=
  ⟨⟨by decide, by decide, by decide, by decide⟩,
    c5_backward_exclusive "dishes" (by decide) (by decide) (by decide) (by decide)⟩

/-- C6: the compiled matcher is whole-word anchored on both sides —
`"cat"` occurring only inside a longer word (right-adjacent as in
`"catastrophe"`, or embedded as in `"scatter"`) never matches, while a
punctuation-delimited occurrence does. -/
theorem c6_whole_word_boundaries :
    pattern_search (create_smart_search_pattern "cat") "catastrophe" = false ∧
      pattern_search (create_smart_search_pattern "cat") "scatter" = false ∧
      pattern_search (create_smart_search_pattern "cat") "a cat." = true := by
  refine ⟨by decide, by decide, by decide⟩

theorem strLtL_irrefl : ∀ a : List Char, strLtL a a = false := by
  intro a
  induction a with
  | nil => rfl
  | cons c cs ih =>
      rw [strLtL]
      simp [ih]

theorem strLtL_trans : ∀ a b c : List Char,
    strLtL a b = true → strLtL b c = true → strLtL a c = true := by
  intro a
  induction a with
  | nil =>
      intro b c hab hbc
      cases c with
      | nil =>
          cases b with
          | nil => exact hab
          | cons y ys => simp [strLtL] at hbc
      | cons z zs => rfl
  | cons x xs ih =>
      intro b c hab hbc
      cases b with
      | nil => simp [strLtL] at hab
      | cons y ys =>
          cases c with
          | nil => simp [strLtL] at hbc
          | cons z zs =>
              rw [strLtL] at hab hbc ⊢
              by_cases hxy : x < y
              · by_cases hyz : y < z
                · rw [if_pos (lt_trans hxy hyz)]
                · rw [if_neg hyz] at hbc
                  by_cases hzy : z < y
                  · rw [if_pos hzy] at hbc
                    exact absurd hbc (by simp)
                  · have : y = z := le_antisymm (not_lt.mp hzy) (not_lt.mp hyz)
                    rw [if_pos (this ▸ hxy)]
              · rw [if_neg hxy] at hab
                by_cases hyx : y < x
                · rw [if_pos hyx] at hab
                  exact absurd hab (by simp)
                · rw [if_neg hyx] at hab
                  have hxy' : x = y := le_antisymm (not_lt.mp hyx) (not_lt.mp hxy)
                  subst hxy'
                  by_cases hyz : x < z
                  · rw [if_pos hyz]
                  · rw [if_neg hyz] at hbc ⊢
                    by_cases hzy : z < x
                    · rw [if_pos hzy] at hbc
                      exact absurd hbc (by simp)
                    · rw [if_neg hzy] at hbc ⊢
                      exact ih ys zs hab hbc

theorem strLtL_connex : ∀ a b : List Char,
    strLtL a b = false → strLtL b a = false → a = b := by
  intro a
  induction a with
  | nil =>
      intro b hab _
      cases b with
      | nil => rfl
      | cons y ys => simp [strLtL] at hab
  | cons x xs ih =>
      intro b hab hba
      cases b with
      | nil => simp [strLtL] at hba
      | cons y ys =>
          rw [strLtL] at hab hba
          by_cases hxy : x < y
          · rw [if_pos hxy] at hab
            exact absurd hab (by simp)
          · by_cases hyx : y < x
            · rw [if_pos hyx] at hba
              exact absurd hba (by simp)
            · rw [if_neg hxy, if_neg hyx] at hab
              rw [if_neg hyx, if_neg hxy] at hba
              have hx : x = y := le_antisymm (not_lt.mp hyx) (not_lt.mp hxy)
              rw [hx, ih ys hab hba]

theorem strLtL_false_trans {a b c : List Char}
    (hab : strLtL a b = false) (hbc : strLtL b c = false) : strLtL a c = false := by
  by_cases hac : strLtL a c = true
  · by_cases hba : strLtL b a = true
    · have := strLtL_trans b a c hba hac
      rw [this] at hbc
      exact absurd hbc (by simp)
    · have hba' : strLtL b a = false := by
        cases h : strLtL b a
        · rfl
        · exact absurd h hba
      have : a = b := strLtL_connex a b hab hba'
      subst this
      rw [hac] at hbc
      exact absurd hbc (by simp)
  · cases h : strLtL a c
    · rfl
    · exact absurd h hac

theorem pubLt_false_trans {a b c : VideoSearchResult}
    (hab : pubLt a b = false) (hbc : pubLt b c = false) : pubLt a c = false :=
  strLtL_false_trans hab hbc

theorem pubLt_asymm_false {a b : VideoSearchResult} (h : pubLt a b = true) :
    pubLt b a = false := by
  by_cases hba : pubLt b a = true
  · have := strLtL_trans _ _ _ h hba
    rw [strLtL_irrefl] at this
    exact absurd this (by simp)
  · cases hh : pubLt b a
    · rfl
    · exact absurd hh hba

theorem pubLt_eq_key_false {a b : VideoSearchResult}
    (h : a.metadata.published_at = b.metadata.published_at) : pubLt a b = false := by
  rw [pubLt, h, strLtL_irrefl]

theorem mem_insertByDesc {z x : VideoSearchResult} :
    ∀ l : List VideoSearchResult, z ∈ insertByDesc x l ↔ z = x ∨ z ∈ l := by
  intro l
  induction l with
  | nil => simp [insertByDesc]
  | cons y ys ih =>
      rw [insertByDesc]
      by_cases h : pubLt x y = true
      · rw [if_pos h]
        simp only [List.mem_cons, ih]
        tauto
      · rw [if_neg h]
        simp [List.mem_cons]

theorem mem_sortByPublishedDesc {z : VideoSearchResult} :
    ∀ l : List VideoSearchResult, z ∈ sortByPublishedDesc l ↔ z ∈ l := by
  intro l
  induction l with
  | nil => simp [sortByPublishedDesc]
  | cons x xs ih =>
      rw [sortByPublishedDesc, mem_insertByDesc]
      simp only [List.mem_cons, ih]

theorem pairwise_insertByDesc (x : VideoSearchResult) :
    ∀ l : List VideoSearchResult, List.Pairwise (fun a b => pubLt a b = false) l →
      List.Pairwise (fun a b => pubLt a b = false) (insertByDesc x l) := by
  intro l
  induction l with
  | nil =>
      intro _
      simp [insertByDesc]
  | cons y ys ih =>
      intro hp
      rw [insertByDesc]
      by_cases h : pubLt x y = true
      · rw [if_pos h]
        rw [List.pairwise_cons] at hp ⊢
        refine ⟨?_, ih hp.2⟩
        intro z hz
        rw [mem_insertByDesc] at hz
        cases hz with
        | inl hzx => exact hzx ▸ pubLt_asymm_false h
        | inr hzy => exact hp.1 z hzy
      · rw [if_neg h]
        have hxy : pubLt x y = false := by
          cases hh : pubLt x y
          · rfl
          · exact absurd hh h
        rw [List.pairwise_cons] at hp
        rw [List.pairwise_cons]
        refine ⟨?_, List.pairwise_cons.mpr hp⟩
        intro z hz
        cases List.mem_cons.mp hz with
        | inl hzy => exact hzy ▸ hxy
        | inr hzys => exact pubLt_false_trans hxy (hp.1 z hzys)

theorem sorted_sortByPublishedDesc :
    ∀ l : List VideoSearchResult,
      List.Pairwise (fun a b => pubLt a b = false) (sortByPublishedDesc l) := by
  intro l
  induction l with
  | nil => simp [sortByPublishedDesc]
  | cons x xs ih => exact pairwise_insertByDesc x _ ih

theorem insertByDesc_eq_cons {x : VideoSearchResult} :
    ∀ {l : List VideoSearchResult}, (∀ z ∈ l, pubLt x z = false) →
      insertByDesc x l = x :: l := by
  intro l h
  cases l with
  | nil => rfl
  | cons y ys =>
      rw [insertByDesc, if_neg]
      rw [h y (List.mem_cons_self y ys)]
      simp

theorem length_insertByDesc (x : VideoSearchResult) :
    ∀ l : List VideoSearchResult, (insertByDesc x l).length = l.length + 1 := by
  intro l
  induction l with
  | nil => rfl
  | cons y ys ih =>
      rw [insertByDesc]
      by_cases h : pubLt x y = true
      · rw [if_pos h]
        simp [ih]
      · rw [if_neg h]
        rfl

theorem length_sortByPublishedDesc :
    ∀ l : List VideoSearchResult, (sortByPublishedDesc l).length = l.length := by
  intro l
  induction l with
  | nil => rfl
  | cons x xs ih =>
      rw [sortByPublishedDesc, length_insertByDesc]
      simp [ih]

theorem insertByDesc_cons (x y : VideoSearchResult) (ys : List VideoSearchResult) :
    insertByDesc x (y :: ys) =
      if pubLt x y = true then y :: insertByDesc x ys else x :: y :: ys := rfl

theorem filter_insertByDesc_neg {p : VideoSearchResult → Bool} {x : VideoSearchResult}
    (hx : p x = false) :
    ∀ l : List VideoSearchResult, (insertByDesc x l).filter p = l.filter p := by
  intro l
  induction l with
  | nil => simp [insertByDesc, hx]
  | cons y ys ih =>
      rw [insertByDesc_cons]
      by_cases h : pubLt x y = true
      · rw [if_pos h]
        cases hy : p y <;> simp [List.filter_cons, hy, ih]
      · rw [if_neg h]
        simp [List.filter_cons, hx]

theorem filter_insertByDesc_pos {p : VideoSearchResult → Bool} {x : VideoSearchResult}
    (hx : p x = true) :
    ∀ l : List VideoSearchResult, List.Pairwise (fun a b => pubLt a b = false) l →
      (insertByDesc x l).filter p = insertByDesc x (l.filter p) := by
  intro l
  induction l with
  | nil =>
      intro _
      simp [insertByDesc, hx]
  | cons y ys ih =>
      intro hp
      rw [List.pairwise_cons] at hp
      rw [insertByDesc_cons]
      by_cases h : pubLt x y = true
      · rw [if_pos h]
        cases hy : p y
        · simp [List.filter_cons, hy, ih hp.2]
        · simp [List.filter_cons, hy, ih hp.2, insertByDesc_cons, h]
      · rw [if_neg h]
        have hxy : pubLt x y = false := by
          cases hh : pubLt x y
          · rfl
          · exact absurd hh h
        cases hy : p y
        · have hfy : List.filter p (y :: ys) = List.filter p ys := by
            simp [List.filter_cons, hy]
          rw [hfy, insertByDesc_eq_cons
            (fun z hz => pubLt_false_trans hxy (hp.1 z (List.mem_of_mem_filter hz)))]
          simp [List.filter_cons, hx, hy]
        · simp [List.filter_cons, hx, hy, insertByDesc_cons, h]

theorem filter_sortByPublishedDesc (p : VideoSearchResult → Bool) :
    ∀ l : List VideoSearchResult,
      (sortByPublishedDesc l).filter p = sortByPublishedDesc (l.filter p) := by
  intro l
  induction l with
  | nil => rfl
  | cons x xs ih =>
      rw [sortByPublishedDesc]
      cases hx : p x
      · rw [filter_insertByDesc_neg hx, ih, List.filter_cons, hx]
        simp
      · rw [filter_insertByDesc_pos hx _ (sorted_sortByPublishedDesc xs), ih]
        rw [List.filter_cons, hx]
        simp only [if_pos rfl]
        rfl

theorem sortByPublishedDesc_const_key {k : String} :
    ∀ l : List VideoSearchResult, (∀ z ∈ l, z.metadata.published_at = k) →
      sortByPublishedDesc l = l := by
  intro l
  induction l with
  | nil => intro _; rfl
  | cons x xs ih =>
      intro h
      rw [sortByPublishedDesc, ih (fun z hz => h z (List.mem_cons_of_mem x hz))]
      apply insertByDesc_eq_cons
      intro z hz
      apply pubLt_eq_key_false
      rw [h x (List.mem_cons_self x xs), h z (List.mem_cons_of_mem x hz)]

theorem collectResults_cons (svc : MetaSvc) (pat : List String) (filt : Option String)
    (video_id : String) (transcript : Transcript) (rest : List (String × Transcript)) :
    collectResults svc pat filt ((video_id, transcript) :: rest) =
      if (segmentMatches pat transcript).isEmpty = true then
        collectResults svc pat filt rest
      else if excludedByFilter filt (get_video_metadata svc video_id) = true then
        ((collectResults svc pat filt rest).1, video_id :: (collectResults svc pat filt rest).2)
      else
        (⟨video_id, get_video_metadata svc video_id, segmentMatches pat transcript⟩ ::
            (collectResults svc pat filt rest).1,
          video_id :: (collectResults svc pat filt rest).2) := rfl

theorem search_all_transcripts_def (svc : MetaSvc) (corpus : List (String × Transcript))
    (term : String) (filt : Option String) :
    search_all_transcripts svc corpus term filt =
      (sortByPublishedDesc
          (collectResults svc (create_smart_search_pattern term) filt corpus).1,
        (collectResults svc (create_smart_search_pattern term) filt corpus).2) := rfl

theorem collectResults_calls (svc : MetaSvc) (pat : List String) (filt : Option String) :
    ∀ corpus : List (String × Transcript),
      (collectResults svc pat filt corpus).2 =
        (corpus.filter fun e => !(segmentMatches pat e.2).isEmpty).map Prod.fst := by
  intro corpus
  induction corpus with
  | nil => rfl
  | cons e rest ih =>
      obtain ⟨vid, tr⟩ := e
      rw [collectResults_cons]
      cases hm : (segmentMatches pat tr).isEmpty
      · rw [if_neg (by simp)]
        cases hex : excludedByFilter filt (get_video_metadata svc vid)
        · rw [if_neg (by simp)]
          simp [List.filter_cons, hm, ih]
        · rw [if_pos rfl]
          simp [List.filter_cons, hm, ih]
      · rw [if_pos rfl]
        simp [List.filter_cons, hm, ih]

theorem collectResults_results (svc : MetaSvc) (pat : List String) (filt : Option String) :
    ∀ corpus : List (String × Transcript),
      ∀ r ∈ (collectResults svc pat filt corpus).1,
        r.«matches».isEmpty = false ∧ r.video_id ∈ (collectResults svc pat filt corpus).2 ∧
          r.metadata = get_video_metadata svc r.video_id := by
  intro corpus
  induction corpus with
  | nil =>
      intro r hr
      simp [collectResults] at hr
  | cons e rest ih =>
      obtain ⟨vid, tr⟩ := e
      intro r hr
      rw [collectResults_cons] at hr ⊢
      cases hm : (segmentMatches pat tr).isEmpty
      · rw [if_neg (by simp [hm])] at hr ⊢
        cases hex : excludedByFilter filt (get_video_metadata svc vid)
        · rw [if_neg (by simp [hex])] at hr ⊢
          rcases List.mem_cons.mp hr with hr0 | hr1
          · subst hr0
            exact ⟨hm, List.mem_cons_self _ _, rfl⟩
          · obtain ⟨h1, h2, h3⟩ := ih r hr1
            exact ⟨h1, List.mem_cons_of_mem _ h2, h3⟩
        · rw [if_pos (by simp [hex])] at hr ⊢
          obtain ⟨h1, h2, h3⟩ := ih r hr
          exact ⟨h1, List.mem_cons_of_mem _ h2, h3⟩
      · rw [if_pos (by simp [hm])] at hr ⊢
        exact ih r hr

theorem collectResults_none_length (svc : MetaSvc) (pat : List String) :
    ∀ corpus : List (String × Transcript),
      (collectResults svc pat none corpus).1.length =
        (corpus.filter fun e => !(segmentMatches pat e.2).isEmpty).length := by
  intro corpus
  induction corpus with
  | nil => rfl
  | cons e rest ih =>
      obtain ⟨vid, tr⟩ := e
      rw [collectResults_cons]
      cases hm : (segmentMatches pat tr).isEmpty
      · rw [if_neg (by simp)]
        rw [if_neg (by simp [excludedByFilter])]
        simp [List.filter_cons, hm, ih]
      · rw [if_pos rfl]
        simp [List.filter_cons, hm, ih]

theorem collectResults_some_filter (svc : MetaSvc) (pat : List String) (f : String)
    (hf1 : f ≠ "") (hf2 : f ≠ "All Channels") :
    ∀ corpus : List (String × Transcript),
      (collectResults svc pat (some f) corpus).1 =
        (collectResults svc pat none corpus).1.filter
          (fun r => r.metadata.channel_title == f) ∧
      (collectResults svc pat (some f) corpus).2 =
        (collectResults svc pat none corpus).2 := by
  intro corpus
  induction corpus with
  | nil => exact ⟨rfl, rfl⟩
  | cons e rest ih =>
      obtain ⟨vid, tr⟩ := e
      rw [collectResults_cons, collectResults_cons]
      cases hm : (segmentMatches pat tr).isEmpty
      · rw [if_neg Bool.false_ne_true, if_neg Bool.false_ne_true]
        have hnone : excludedByFilter none (get_video_metadata svc vid) = false := rfl
        cases hch : (get_video_metadata svc vid).channel_title == f
        · have hne : (get_video_metadata svc vid).channel_title ≠ f := by
            intro hEq
            rw [hEq] at hch
            simp at hch
          have hx : excludedByFilter (some f) (get_video_metadata svc vid) = true := by
            simp only [excludedByFilter]
            rw [show (f != "") = true from bne_iff_ne.mpr hf1,
              show (f != "All Channels") = true from bne_iff_ne.mpr hf2,
              show ((get_video_metadata svc vid).channel_title != f) = true from
                bne_iff_ne.mpr hne]
            rfl
          rw [if_pos hx, if_neg (by simp [hnone])]
          refine ⟨?_, ?_⟩
          · rw [ih.1]
            simp [List.filter_cons, hch]
          · rw [ih.2]
        · have hx : excludedByFilter (some f) (get_video_metadata svc vid) = false := by
            simp only [excludedByFilter]
            rw [show ((get_video_metadata svc vid).channel_title != f) = false from by
              simp [bne, hch]]
            simp
          rw [if_neg (by simp [hx]), if_neg (by simp [hnone])]
          refine ⟨?_, ?_⟩
          · rw [ih.1]
            simp [List.filter_cons, hch]
          · rw [ih.2]
      · rw [if_pos rfl, if_pos rfl]
        exact ih

theorem collectResults_error_metadata (pat : List String) (filt : Option String) (e : String) :
    ∀ corpus : List (String × Transcript),
      ∀ r ∈ (collectResults (fun _ => Except.error e) pat filt corpus).1,
        r.metadata = fallbackMetadata r.video_id := by
  intro corpus r hr
  have h := (collectResults_results (fun _ => Except.error e) pat filt corpus r hr).2.2
  rw [h]
  rfl

/-- C7: `get_video_metadata` is the terminal error-absorption point: when
the collaborator raises (`Except.error`) or the video resolves to no
metadata (`Except.ok none`), the function returns exactly
`title = "Video <id>"`, `published_at = "Unknown"`,
`channel_title = "Unknown"`, `description = ""` (it is a total function,
so it cannot itself raise); and a search run against an always-throwing
collaborator still returns one result per matching video, each carrying
that fallback record. -/
theorem c7_metadata_fallback :
    (∀ (svc : MetaSvc) (video_id e : String), svc video_id = Except.error e →
      get_video_metadata svc video_id =
        { title := "Video " ++ video_id, published_at := "Unknown",
          channel_title := "Unknown", description := "" }) ∧
    (∀ (svc : MetaSvc) (video_id : String), svc video_id = Except.ok none →
      get_video_metadata svc video_id = fallbackMetadata video_id) ∧
    (∀ (e term : String) (corpus : List (String × Transcript)),
      (∀ r ∈ (search_all_transcripts (fun _ => Except.error e) corpus term none).1,
        r.metadata = fallbackMetadata r.video_id) ∧
      (search_all_transcripts (fun _ => Except.error e) corpus term none).1.length =
        (corpus.filter fun en =>
          !(segmentMatches (create_smart_search_pattern term) en.2).isEmpty).length) := by
  refine ⟨?_, ?_, ?_⟩
  · intro svc vid e h
    unfold get_video_metadata
    rw [h]
    rfl
  · intro svc vid h
    unfold get_video_metadata
    rw [h]
  · intro e term corpus
    constructor
    · intro r hr
      have hr' : r ∈ (collectResults (fun _ => Except.error e)
          (create_smart_search_pattern term) none corpus).1 :=
        (mem_sortByPublishedDesc _).mp hr
      exact collectResults_error_metadata _ none e corpus r hr'
    · show (sortByPublishedDesc (collectResults (fun _ => Except.error e)
          (create_smart_search_pattern term) none corpus).1).length = _
      rw [length_sortByPublishedDesc]
      exact collectResults_none_length _ _ corpus

theorem c7_metadata_fallback_witness :
    ((fun _ => Except.error "boom" : MetaSvc) "vid123" = Except.error "boom") ∧
      get_video_metadata (fun _ => Except.error "boom") "vid123" =
        { title := "Video " ++ "vid123", published_at := "Unknown",
          channel_title := "Unknown", description := "" } :=
  ⟨rfl, c7_metadata_fallback.1 (fun _ => Except.error "boom") "vid123" "boom" rfl⟩

/-- C8: the metadata-call log of a search is exactly the list of corpus
videos with at least one matching segment, in iteration order — so the
collaborator is never invoked for a zero-match video — and every result in
the outcome has a non-empty match list and is one of those logged
(matching) videos: zero-match videos are dropped from the outcome. -/
theorem c8_zero_match_videos_dropped (svc : MetaSvc) (corpus : List (String × Transcript))
    (term : String) (filt : Option String) :
    (search_all_transcripts svc corpus term filt).2 =
      (corpus.filter fun e =>
        !(segmentMatches (create_smart_search_pattern term) e.2).isEmpty).map Prod.fst ∧
    ∀ r ∈ (search_all_transcripts svc corpus term filt).1,
      r.«matches» ≠ [] ∧
        r.video_id ∈ (search_all_transcripts svc corpus term filt).2 := by
  constructor
  · exact collectResults_calls svc _ filt corpus
  · intro r hr
    have hr' : r ∈ (collectResults svc (create_smart_search_pattern term) filt corpus).1 :=
      (mem_sortByPublishedDesc _).mp hr
    obtain ⟨h1, h2, -⟩ := collectResults_results svc _ filt corpus r hr'
    refine ⟨?_, h2⟩
    intro hEq
    rw [hEq] at h1
    simp at h1

theorem c8_zero_match_videos_dropped_witness :
    ((⟨"v1", fallbackMetadata "v1", [⟨5, "a cat here"⟩]⟩ : VideoSearchResult) ∈
        (search_all_transcripts (fun _ => Except.ok none)
          [("v1", [⟨5, "a cat here"⟩]), ("v2", [⟨1, "no dogs here"⟩])] "cat" none).1) ∧
      ((⟨"v1", fallbackMetadata "v1", [⟨5, "a cat here"⟩]⟩ : VideoSearchResult).«matches» ≠ [] ∧
        (⟨"v1", fallbackMetadata "v1", [⟨5, "a cat here"⟩]⟩ : VideoSearchResult).video_id ∈
          (search_all_transcripts (fun _ => Except.ok none)
            [("v1", [⟨5, "a cat here"⟩]), ("v2", [⟨1, "no dogs here"⟩])] "cat" none).2) :=
  ⟨by decide,
    (c8_zero_match_videos_dropped (fun _ => Except.ok none)
        [("v1", [⟨5, "a cat here"⟩]), ("v2", [⟨1, "no dogs here"⟩])] "cat" none).2
      _ (by decide)⟩

/-- C9: with a channel filter that is neither empty (Python truthiness)
nor the `"All Channels"` sentinel, the outcome is exactly the unfiltered
outcome restricted to results whose `channel_title` equals the filter
character-for-character, and the metadata-call log is unchanged — the
filter is applied after the metadata fetch, never before. -/
theorem c9_channel_filter_exact (svc : MetaSvc) (corpus : List (String × Transcript))
    (term f : String) (hf1 : f ≠ "") (hf2 : f ≠ "All Channels") :
    (search_all_transcripts svc corpus term (some f)).1 =
      (search_all_transcripts svc corpus term none).1.filter
        (fun r => r.metadata.channel_title == f) ∧
    (search_all_transcripts svc corpus term (some f)).2 =
      (search_all_transcripts svc corpus term none).2 := by
  obtain ⟨h1, h2⟩ :=
    collectResults_some_filter svc (create_smart_search_pattern term) f hf1 hf2 corpus
  constructor
  · show sortByPublishedDesc
        (collectResults svc (create_smart_search_pattern term) (some f) corpus).1 =
      (sortByPublishedDesc
        (collectResults svc (create_smart_search_pattern term) none corpus).1).filter
        (fun r => r.metadata.channel_title == f)
    rw [h1, ← filter_sortByPublishedDesc]
  · exact h2

theorem c9_channel_filter_exact_witness :
    (("A" : String) ≠ "" ∧ ("A" : String) ≠ "All Channels") ∧
      ((search_all_transcripts
            (fun id => if id = "a1" then Except.ok (some ⟨"T1", "2024-01-01", "A", none⟩)
              else Except.ok (some ⟨"T2", "2024-02-01", "B", none⟩))
            [("a1", [⟨0, "cat one"⟩]), ("b1", [⟨0, "cat two"⟩])] "cat" (some "A")).1 =
          (search_all_transcripts
            (fun id => if id = "a1" then Except.ok (some ⟨"T1", "2024-01-01", "A", none⟩)
              else Except.ok (some ⟨"T2", "2024-02-01", "B", none⟩))
            [("a1", [⟨0, "cat one"⟩]), ("b1", [⟨0, "cat two"⟩])] "cat" none).1.filter
            (fun r => r.metadata.channel_title == "A") ∧
        (search_all_transcripts
            (fun id => if id = "a1" then Except.ok (some ⟨"T1", "2024-01-01", "A", none⟩)
              else Except.ok (some ⟨"T2", "2024-02-01", "B", none⟩))
            [("a1", [⟨0, "cat one"⟩]), ("b1", [⟨0, "cat two"⟩])] "cat" (some "A")).2 =
          (search_all_transcripts
            (fun id => if id = "a1" then Except.ok (some ⟨"T1", "2024-01-01", "A", none⟩)
              else Except.ok (some ⟨"T2", "2024-02-01", "B", none⟩))
            [("a1", [⟨0, "cat one"⟩]), ("b1", [⟨0, "cat two"⟩])] "cat" none).2) :=
  ⟨⟨by decide, by decide⟩,
    c9_channel_filter_exact
      (fun id => if id = "a1" then Except.ok (some ⟨"T1", "2024-01-01", "A", none⟩)
        else Except.ok (some ⟨"T2", "2024-02-01", "B", none⟩))
      [("a1", [⟨0, "cat one"⟩]), ("b1", [⟨0, "cat two"⟩])] "cat" "A" (by decide) (by decide)⟩

/-- C10: the outcome is sorted by `published_at` descending under raw
code-point string comparison (pairwise: no later entry has a strictly
greater key), the sort is stable (restricting the outcome to any fixed
`published_at` value yields those entries in their pre-sort iteration
order), and concretely: three matching videos dated 2023-01-01,
2024-06-01, 2022-12-31 come out newest-first; a fallback `"Unknown"` entry
sorts at that literal string's ordinal position (`'U' > '2'`, so before
ISO dates, with no special-casing); and two entries with equal dates keep
their input order. -/
theorem c10_sorted_published_desc (svc : MetaSvc) (corpus : List (String × Transcript))
    (term : String) (filt : Option String) :
    List.Pairwise (fun a b => pubLt a b = false)
        (search_all_transcripts svc corpus term filt).1 ∧
    (∀ k : String,
      ((search_all_transcripts svc corpus term filt).1.filter
          fun r => r.metadata.published_at == k) =
        ((collectResults svc (create_smart_search_pattern term) filt corpus).1.filter
          fun r => r.metadata.published_at == k)) ∧
    ((search_all_transcripts
        (fun id => if id = "v1" then Except.ok (some ⟨"t1", "2023-01-01", "C", none⟩)
          else if id = "v2" then Except.ok (some ⟨"t2", "2024-06-01", "C", none⟩)
          else Except.ok (some ⟨"t3", "2022-12-31", "C", none⟩))
        [("v1", [⟨0, "cat"⟩]), ("v2", [⟨0, "cat"⟩]), ("v3", [⟨0, "cat"⟩])] "cat" none).1.map
      fun r => r.metadata.published_at) = ["2024-06-01", "2023-01-01", "2022-12-31"] ∧
    ((search_all_transcripts
        (fun id => if id = "v1" then Except.error "boom"
          else Except.ok (some ⟨"t2", "2024-06-01", "C", none⟩))
        [("v1", [⟨0, "cat"⟩]), ("v2", [⟨0, "cat"⟩])] "cat" none).1.map
      fun r => r.metadata.published_at) = ["Unknown", "2024-06-01"] ∧
    ((search_all_transcripts
        (fun _ => Except.ok (some ⟨"t", "2023-01-01", "C", none⟩))
        [("v1", [⟨0, "cat"⟩]), ("v2", [⟨0, "cat"⟩])] "cat" none).1.map
      fun r => r.video_id) = ["v1", "v2"] := by
  refine ⟨?_, ?_, by decide, by decide, by decide⟩
  · exact sorted_sortByPublishedDesc _
  · intro k
    show (sortByPublishedDesc
        (collectResults svc (create_smart_search_pattern term) filt corpus).1).filter _ = _
    rw [filter_sortByPublishedDesc]
    apply @sortByPublishedDesc_const_key k
    intro z hz
    exact eq_of_beq (List.mem_filter.mp hz).2
